import Mathlib

/-
Verification development for the GradeLens computer-vision grading pipeline.

The Python sources under `compute/cv/app` are shallowly embedded here:
pixel fill ratios, thresholds and coordinates are modelled over the
rationals (the Python code computes with floating point; the embedding
uses exact arithmetic), option letters and status strings are `String`s,
and Python dictionaries ordered by insertion are association lists.
-/

namespace GradeLens

/-- Bubble threshold configuration, from `app/schemas/template.py`, class
`BubbleConfig`.  Only the two thresholds are read by answer determination;
the `radius` field feeds the pixel-level scoring and is not modelled. -/
structure BubbleConfig where
  fill_threshold : ℚ
  ambiguous_threshold : ℚ
deriving Repr, DecidableEq

/-- Stable insertion of one scored option into a value-descending list:
the element being inserted comes from further left in the original list,
so it stays in front of entries of equal value.  Together with `sortDesc`
this realises the semantics of Python
`sorted(d.items(), key=lambda x: x[1], reverse=True)`, which is a stable
descending sort. -/
def insertDesc (x : String × ℚ) : List (String × ℚ) → List (String × ℚ)
  | [] => [x]
  | y :: ys => if x.2 < y.2 then y :: insertDesc x ys else x :: y :: ys

/-- Stable descending sort by value (the second component). -/
def sortDesc : List (String × ℚ) → List (String × ℚ)
  | [] => []
  | x :: xs => insertDesc x (sortDesc xs)

/-- Minimum over the stored values: Python `min(fill_ratios.values())`.
Only ever used on non-empty lists (the Python call would raise on an
empty dict); on `[]` it returns `0`. -/
def valuesMin : List (String × ℚ) → ℚ
  | [] => 0
  | x :: xs => xs.foldl (fun m p => min m p.2) x.2

/-- Baseline-subtracted ("net") fill ratios, from
`app/pipeline/fill_scoring.py` lines 191-192:
`baseline = min(fill_ratios.values())` and
`net_ratios = {k: max(0.0, v - baseline) for k, v in fill_ratios.items()}`. -/
def netRatios (fill_ratios : List (String × ℚ)) : List (String × ℚ) :=
  fill_ratios.map (fun p => (p.1, max 0 (p.2 - valuesMin fill_ratios)))

/-- The relative-ambiguity block of `determine_selected_answers`
(`app/pipeline/fill_scoring.py` lines 215-246, "close competitors").
`sorted_net` is the net-ratio list sorted descending by value.  The
Python block returns early from inside nested `if`s; `some` models that
early return, `none` the fall-through to the absolute check. -/
def close_competitor_check (sorted_net : List (String × ℚ))
    (fill_threshold : ℚ) : Option (List String × String × ℚ) :=
  let top_net_val := (sorted_net.headD ("", 0)).2
  if 2 ≤ sorted_net.length ∧ 0 < top_net_val then
    let min_competitor_net := fill_threshold * (35 / 100)
    let second_net_val := (sorted_net.tail.headD ("", 0)).2
    if min_competitor_net < second_net_val then
      if (55 / 100 : ℚ) < second_net_val / top_net_val then
        let close_options :=
          (sorted_net.filter (fun p =>
            decide (min_competitor_net < p.2) &&
              (decide (top_net_val = 0) ||
                decide ((45 / 100 : ℚ) < p.2 / top_net_val)))).map
            Prod.fst
        if 1 < close_options.length then
          some (close_options, "ambiguous", top_net_val - second_net_val)
        else none
      else none
    else none
  else none

/-- The absolute-ambiguity check and single-answer selection of
`determine_selected_answers` (`fill_scoring.py` lines 248-263),
reached when the relative check falls through. -/
def absolute_or_single (fill_ratios sorted_net : List (String × ℚ))
    (ambiguous_threshold : ℚ) : List String × String × ℚ :=
  let high_fill_options :=
    (fill_ratios.filter (fun p =>
      decide (ambiguous_threshold ≤ p.2))).map Prod.fst
  if 1 < high_fill_options.length then
    (high_fill_options, "ambiguous", 0)
  else
    let top_net_option := (sorted_net.headD ("", 0)).1
    let top_net_val := (sorted_net.headD ("", 0)).2
    let confidence :=
      if 2 ≤ sorted_net.length then
        top_net_val - (sorted_net.tail.headD ("", 0)).2
      else top_net_val
    ([top_net_option], "answered", confidence)

/-- Function `determine_selected_answers` from `app/pipeline/fill_scoring.py`
(lines 155-263).  Input: the per-option fill ratios (an insertion-ordered
dict) and the bubble configuration.  Output:
`(selected_options, status, confidence)`. -/
def determine_selected_answers (fill_ratios : List (String × ℚ))
    (bubble_config : BubbleConfig) : List String × String × ℚ :=
  match fill_ratios with
  | [] => ([], "unanswered", 0)
  | _ :: _ =>
    let fill_threshold := bubble_config.fill_threshold
    let ambiguous_threshold := bubble_config.ambiguous_threshold
    let sorted_abs := sortDesc fill_ratios
    let sorted_net := sortDesc (netRatios fill_ratios)
    let top_ratio := (sorted_abs.headD ("", 0)).2
    -- Unanswered check (lines 210-213)
    if top_ratio < fill_threshold then
      ([], "unanswered", 0)
    else
      match close_competitor_check sorted_net fill_threshold with
      | some r => r
      | none => absolute_or_single fill_ratios sorted_net ambiguous_threshold

/-- Shift every option's fill ratio by a constant bias `c` (the
"uniformly thicker printed border" experiment of the spec). -/
def shiftList (c : ℚ) (l : List (String × ℚ)) : List (String × ℚ) :=
  l.map (fun p => (p.1, p.2 + c))

/-- Value of `sorted_abs[0]`: the highest absolute fill ratio (with the
first-in-dict-order option winning ties, as Python stable sort does). -/
def topAbsVal (l : List (String × ℚ)) : ℚ := ((sortDesc l).headD ("", 0)).2

/-- Value of `sorted_net[0]`: the highest baseline-subtracted fill. -/
def topNetVal (l : List (String × ℚ)) : ℚ :=
  ((sortDesc (netRatios l)).headD ("", 0)).2

/-- Value of `sorted_net[1]`: the second-highest baseline-subtracted fill. -/
def secondNetVal (l : List (String × ℚ)) : ℚ :=
  ((sortDesc (netRatios l)).tail.headD ("", 0)).2

/-- Minimum of a list of rationals (`0` on the empty list, which never
occurs in the modelled code paths). -/
def qmin : List ℚ → ℚ
  | [] => 0
  | x :: xs => xs.foldl min x

/-- Maximum of a list of rationals (`0` on the empty list). -/
def qmax : List ℚ → ℚ
  | [] => 0
  | x :: xs => xs.foldl max x

/-- Twice the signed shoelace area of a closed polygon. -/
def shoelaceSum (pts : List (ℚ × ℚ)) : ℚ :=
  ((pts.zip (pts.rotate 1)).map
    (fun pq => pq.1.1 * pq.2.2 - pq.2.1 * pq.1.2)).sum

/-- Area as computed by `cv2.contourArea`: absolute shoelace area of the polygon. -/
def contourArea (pts : List (ℚ × ℚ)) : ℚ := |shoelaceSum pts| / 2

/-- Function `validate_paper_detection` from `app/pipeline/paper_detection.py`
(lines 148-190).  `image_shape` is `(height, width)`; the default
`min_area_ratio` is `0.25` as in the Python signature.  Returns
`(is_valid, reason)`. -/
def validate_paper_detection (corners : List (ℚ × ℚ))
    (image_shape : ℕ × ℕ) (min_area_ratio : ℚ := 25 / 100) : Bool × String :=
  if corners.length ≠ 4 then
    (false, "Expected 4 corners")
  else
    let area := contourArea corners
    let img_area : ℚ := (image_shape.1 : ℚ) * (image_shape.2 : ℚ)
    let area_ratio := area / img_area
    if area_ratio < min_area_ratio then
      (false, "Detected area too small")
    else if (98 / 100 : ℚ) < area_ratio then
      (false, "Detected area too large, likely edge of image, not paper")
    else
      let x_range := qmax (corners.map Prod.fst) - qmin (corners.map Prod.fst)
      let y_range := qmax (corners.map Prod.snd) - qmin (corners.map Prod.snd)
      if x_range < (image_shape.2 : ℚ) * (3 / 10) ∨
          y_range < (image_shape.1 : ℚ) * (3 / 10) then
        (false, "Detected region too narrow or short")
      else
        (true, "Valid")

/-- The whole-image fallback boundary built at
`paper_detection.py` lines 234-239:
`[[0,0],[w-1,0],[w-1,h-1],[0,h-1]]`. -/
def full_image_frame (h w : ℕ) : List (ℚ × ℚ) :=
  [(0, 0), ((w : ℚ) - 1, 0), ((w : ℚ) - 1, (h : ℚ) - 1), (0, (h : ℚ) - 1)]

/-- Function `detect_paper_with_fallback` from `paper_detection.py` (lines 193-239).
The contour pipeline inside `detect_paper_boundary` is pixel-level CV, so
its outcome is abstracted as the input `boundary`: `none` stands for a
raised `PaperDetectionError`, `some corners` for a returned contour.
`Except.error` models a propagated exception.  Note that a validation
failure in strict mode raises inside the `try` block and is re-raised by
the `except` handler, which behaves the same as raising directly. -/
def detect_paper_with_fallback (boundary : Option (List (ℚ × ℚ)))
    (h w : ℕ) (strict : Bool) : Except String (Option (List (ℚ × ℚ))) :=
  match boundary with
  | some corners =>
    if (validate_paper_detection corners (h, w)).1 then
      Except.ok (some corners)
    else if strict then Except.error "Validation failed"
    else Except.ok none
  | none =>
    if strict then Except.error "Paper detection failed"
    else Except.ok (some (full_image_frame h w))

/-- Function `filter_contours_by_area` from `app/utils/contour_utils.py`
(lines 46-65), with each contour abstracted by its `cv2.contourArea`
value (the only attribute the filter reads):
keeps contours with `min_area <= area <= max_area`. -/
def filter_contours_by_area (contours : List ℚ) (min_area : ℚ)
    (max_area : ℚ) : List ℚ :=
  contours.filter (fun a => decide (min_area ≤ a) && decide (a ≤ max_area))

/-- Default `min_area_ratio` in the signature of `detect_paper_boundary`
(`paper_detection.py` line 25). -/
def paper_min_area_ratio_default : ℚ := 25 / 100

/-- Default `max_area_ratio` in the signature of `detect_paper_boundary`
(`paper_detection.py` line 26). -/
def paper_max_area_ratio_default : ℚ := 95 / 100

/-- The area filtering step of `detect_paper_boundary`
(`paper_detection.py` lines 89-95) at the default area-ratio arguments:
`min_area = img_area * min_area_ratio`, `max_area = img_area *
max_area_ratio`, then `filter_contours_by_area`. -/
def paper_contour_filter (contours : List ℚ) (img_area : ℚ) : List ℚ :=
  filter_contours_by_area contours
    (img_area * paper_min_area_ratio_default)
    (img_area * paper_max_area_ratio_default)

/-- Selection by `np.argmin` composed with point lookup: the first element of the list
minimising `f` (default `(0,0)` on the empty list, unreachable from
`order_points` callers which pass 4 points). -/
def select_min (f : ℚ × ℚ → ℚ) : List (ℚ × ℚ) → ℚ × ℚ
  | [] => (0, 0)
  | x :: xs => xs.foldl (fun best p => if f p < f best then p else best) x

/-- Selection by `np.argmax` composed with point lookup: the first element of the list
maximising `f`. -/
def select_max (f : ℚ × ℚ → ℚ) : List (ℚ × ℚ) → ℚ × ℚ
  | [] => (0, 0)
  | x :: xs => xs.foldl (fun best p => if f best < f p then p else best) x

/-- Function `order_points` from `app/utils/image_utils.py` (lines 163-192):
`rect[0] = pts[np.argmin(s)]` (top-left, smallest `x+y`),
`rect[1] = pts[np.argmin(diff)]` (top-right, smallest `y-x`),
`rect[2] = pts[np.argmax(s)]` (bottom-right, largest `x+y`),
`rect[3] = pts[np.argmax(diff)]` (bottom-left, largest `y-x`),
where `np.diff` on an `(x, y)` row is `y - x`. -/
def order_points (pts : List (ℚ × ℚ)) : List (ℚ × ℚ) :=
  [select_min (fun p => p.1 + p.2) pts,
   select_min (fun p => p.2 - p.1) pts,
   select_max (fun p => p.1 + p.2) pts,
   select_max (fun p => p.2 - p.1) pts]

/-- Predicate: `f` has a unique strict minimiser in `pts`. -/
def UniqueMin (f : ℚ × ℚ → ℚ) (pts : List (ℚ × ℚ)) : Prop :=
  ∃ a ∈ pts, ∀ x ∈ pts, x ≠ a → f a < f x

/-- Predicate: `f` has a unique strict maximiser in `pts`. -/
def UniqueMax (f : ℚ × ℚ → ℚ) (pts : List (ℚ × ℚ)) : Prop :=
  ∃ a ∈ pts, ∀ x ∈ pts, x ≠ a → f x < f a

/-- Auto-computed base search radius from `app/pipeline/align.py`
lines 51-53: `search_radius = max(20, int(img_diagonal * 0.024))` with
`img_diagonal = np.sqrt(img_width**2 + img_height**2)`.  In exact
arithmetic `int(sqrt(w^2 + h^2) * 0.024)` equals
`Nat.sqrt (576 * (w^2 + h^2) / 1000000)` because `0.024^2 = 576/10^6`;
the equivalence with the floor-of-square-root form is proved in the
claim C8 theorem below. -/
def auto_search_radius (img_width img_height : ℕ) : ℕ :=
  max 20 (Nat.sqrt (576 * (img_width ^ 2 + img_height ^ 2) / 1000000))

/-- Abstract outcome of the `detect_paper_with_fallback` call made by the
orchestrator (`grade.py` lines 147-150). -/
inductive PaperOutcome
  /-- a validated quadrilateral was returned -/
  | corners
  /-- `None` was returned (validation failed in non-strict mode) -/
  | missed
  /-- `PaperDetectionError` was raised (strict mode) -/
  | raised
deriving Repr, DecidableEq

/-- Abstract environment for one run of `run_detection_pipeline`
(`app/pipeline/grade.py` lines 39-488): the outcome of each pixel-level
stage, the measured quality metrics, and the per-question detection
statuses produced by fill scoring. -/
structure StageEnv where
  /-- `load_template` succeeds -/
  templateOk : Bool
  /-- the `preprocess_image` call succeeds; it raises `PreprocessingError`
  only when the image cannot be decoded (`preprocess.py` lines 57-63),
  a property of the input file alone - quality issues only warn
  (`preprocess.py` lines 108-120) -/
  preprocessOk : Bool
  blur_score : ℚ
  skew_angle : ℚ
  paperOutcome : PaperOutcome
  /-- `correct_perspective` does not raise -/
  perspectiveOk : Bool
  /-- `validate_perspective_correction` passes -/
  perspectiveValid : Bool
  /-- `align_image_with_template` raises `AlignmentError` -/
  alignmentRaises : Bool
  /-- the alignment success flag -/
  alignmentSuccess : Bool
  /-- `extract_all_bubbles` does not raise -/
  roiOk : Bool
  /-- `detection_status` of each scored question, in order -/
  questionStatuses : List String
deriving Repr, DecidableEq

/-- The observable part of the `DetectionResult` schema: overall status,
per-question statuses, warning codes and error codes. -/
structure DetectionResult where
  status : String
  detections : List String
  warnings : List String
  errors : List String
deriving Repr, DecidableEq

/-- Function `run_detection_pipeline` from `app/pipeline/grade.py`, over the
abstract stage environment.  Mirrors the orchestrator control flow:
every `errors.append` + `raise GradingPipelineError` pair becomes an
early `failed` result; alignment problems only warn (lines 204-222);
the final status is computed at lines 275-281.  A preprocessing failure
aborts the run in both modes: `preprocess_image` raises only on a
decode / invalid-input failure (`preprocess.py` lines 57-63), so in
strict mode the handler raises `GradingPipelineError` (grade.py
lines 131-132), while in non-strict mode the retry (lines 136-140)
reads the same unreadable file, deterministically raises
`PreprocessingError` again from inside the `except` handler, and the
orchestrator's outermost generic handler (lines 466-488) converts it
into an `UNEXPECTED_ERROR` failed result with empty detections. -/
def run_detection_pipeline (env : StageEnv) (strict_quality : Bool) :
    DetectionResult :=
  if env.templateOk = false then
    { status := "failed", detections := [], warnings := [],
      errors := ["TEMPLATE_LOAD_FAILED"] }
  else if env.preprocessOk = false then
    if strict_quality then
      { status := "failed", detections := [], warnings := [],
        errors := ["PREPROCESSING_FAILED"] }
    else
      { status := "failed", detections := [], warnings := [],
        errors := ["PREPROCESSING_FAILED", "UNEXPECTED_ERROR"] }
  else
    let warnings1 : List String :=
      (if env.blur_score < 100 then ["LOW_BLUR_SCORE"] else []) ++
        (if 5 < |env.skew_angle| then ["SIGNIFICANT_SKEW"] else [])
    if env.paperOutcome ≠ PaperOutcome.corners then
      { status := "failed", detections := [], warnings := warnings1,
        errors := ["PAPER_NOT_DETECTED"] }
    else if env.perspectiveOk = false then
      { status := "failed", detections := [], warnings := warnings1,
        errors := ["PERSPECTIVE_CORRECTION_FAILED"] }
    else
      let warnings2 := warnings1 ++
        (if env.perspectiveValid then [] else ["PERSPECTIVE_QUALITY"])
      let warnings3 := warnings2 ++
        (if env.alignmentRaises then ["ALIGNMENT_FAILED"]
         else if env.alignmentSuccess then [] else ["ALIGNMENT_SKIPPED"])
      if env.roiOk = false then
        { status := "failed", detections := [], warnings := warnings3,
          errors := ["ROI_EXTRACTION_FAILED"] }
      else
        let ambiguous_count :=
          env.questionStatuses.countP (fun s => s == "ambiguous")
        let warnings4 := warnings3 ++
          (if 3 < ambiguous_count then ["MULTIPLE_AMBIGUOUS"] else [])
        -- every `errors.append` aborts the run, so on the path that
        -- reaches finalization the accumulated error list is empty and
        -- the `if errors:` branch of lines 276-277 cannot fire
        let errors : List String := []
        { status :=
            if errors ≠ [] then "failed"
            else if 0 < ambiguous_count then "needs_review"
            else "success",
          detections := env.questionStatuses,
          warnings := warnings4, errors := errors }

/-- Modelled from the spec: the spec's notion of "a fatal error
occurred", assembled from its error taxonomy and orchestration
sections: a layout-load failure ("LayoutLoadError - fatal"), a
preprocessing failure ("DecodeError - corrupt/unreadable image - fatal,
stage 1"; a decode failure is the only failure `preprocess_image` can
raise), a missing paper boundary ("PaperNotFoundError - fatal"), a
perspective-correction failure, or an ROI-extraction failure.
Alignment problems and quality issues are warnings, never fatal.  Used
to state claim C2 as written. -/
def fatal_error_occurred (env : StageEnv) : Prop :=
  env.templateOk = false ∨
    env.preprocessOk = false ∨
    env.paperOutcome ≠ PaperOutcome.corners ∨
    env.perspectiveOk = false ∨
    env.roiOk = false

/-! ### General lemmas about the stable descending sort and helpers -/

theorem insertDesc_perm (x : String × ℚ) (l : List (String × ℚ)) :
    (insertDesc x l).Perm (x :: l) := by
  induction l with
  | nil => simp [insertDesc]
  | cons y ys ih =>
    rw [insertDesc]
    split
    · exact ((ih.cons y).trans (List.Perm.swap x y ys))
    · exact List.Perm.refl _

theorem sortDesc_perm (l : List (String × ℚ)) : (sortDesc l).Perm l := by
  induction l with
  | nil => exact List.Perm.refl _
  | cons x xs ih => exact (insertDesc_perm x (sortDesc xs)).trans (ih.cons x)

theorem mem_sortDesc {p : String × ℚ} {l : List (String × ℚ)} :
    p ∈ sortDesc l ↔ p ∈ l :=
  (sortDesc_perm l).mem_iff

theorem sortDesc_length (l : List (String × ℚ)) :
    (sortDesc l).length = l.length :=
  (sortDesc_perm l).length_eq

theorem sortDesc_pairwise (l : List (String × ℚ)) :
    (sortDesc l).Pairwise (fun a b => b.2 ≤ a.2) := by
  induction l with
  | nil => simp [sortDesc]
  | cons x xs ih =>
    rw [sortDesc]
    generalize hs : sortDesc xs = s at ih
    clear hs
    induction s with
    | nil => simp [insertDesc]
    | cons y ys ihs =>
      rw [insertDesc]
      rcases List.pairwise_cons.1 ih with ⟨hy, hys⟩
      split
      · rename_i hlt
        refine List.pairwise_cons.2 ⟨?_, ihs hys⟩
        intro z hz
        rcases List.mem_cons.1 ((insertDesc_perm x ys).mem_iff.1 hz) with hz | hz
        · exact le_of_lt (by simpa [hz] using hlt)
        · exact hy z hz
      · rename_i hge
        push_neg at hge
        refine List.pairwise_cons.2 ⟨?_, ih⟩
        intro z hz
        rcases List.mem_cons.1 hz with hz | hz
        · simpa [hz] using hge
        · exact le_trans (hy z hz) hge

theorem sortDesc_ne_nil {l : List (String × ℚ)} (h : l ≠ []) :
    sortDesc l ≠ [] := by
  intro hnil
  exact h (List.Perm.eq_nil ((sortDesc_perm l).symm.trans (by rw [hnil])))

theorem sortDesc_headD_mem {l : List (String × ℚ)} (h : l ≠ [])
    (d : String × ℚ) : (sortDesc l).headD d ∈ l := by
  have hs := sortDesc_ne_nil h
  cases hh : sortDesc l with
  | nil => exact absurd hh hs
  | cons a s =>
    have : a ∈ sortDesc l := by rw [hh]; exact List.mem_cons_self _ _
    simpa [hh] using mem_sortDesc.1 this

theorem sortDesc_headD_ge {l : List (String × ℚ)} {p : String × ℚ}
    (hp : p ∈ l) (d : String × ℚ) : p.2 ≤ ((sortDesc l).headD d).2 := by
  have hmem : p ∈ sortDesc l := mem_sortDesc.2 hp
  cases hh : sortDesc l with
  | nil => rw [hh] at hmem; exact absurd hmem (List.not_mem_nil p)
  | cons a s =>
    rw [hh] at hmem
    have hpw := sortDesc_pairwise l
    rw [hh, List.pairwise_cons] at hpw
    rcases List.mem_cons.1 hmem with h1 | h1
    · simp [hh, h1]
    · simpa [hh] using hpw.1 p h1

theorem sortDesc_second_le_head {l : List (String × ℚ)} (d : String × ℚ) :
    (((sortDesc l).tail.headD d)).2 ≤ ((sortDesc l).headD d).2 ∨
      (sortDesc l).tail = [] := by
  cases hh : sortDesc l with
  | nil => right; rfl
  | cons a s =>
    cases s with
    | nil => right; rfl
    | cons b t =>
      left
      have hpw := sortDesc_pairwise l
      rw [hh, List.pairwise_cons] at hpw
      simpa using hpw.1 b (List.mem_cons_self _ _)

theorem valuesMin_le {l : List (String × ℚ)} {p : String × ℚ} (hp : p ∈ l) :
    valuesMin l ≤ p.2 := by
  cases l with
  | nil => exact absurd hp (List.not_mem_nil p)
  | cons x xs =>
    rw [valuesMin]
    rcases List.mem_cons.1 hp with h1 | h1
    · subst h1
      have : ∀ (ys : List (String × ℚ)) (a : ℚ),
          ys.foldl (fun m q => min m q.2) a ≤ a := by
        intro ys
        induction ys with
        | nil => intro a; exact le_refl a
        | cons y ys ih =>
          intro a
          exact le_trans (ih (min a y.2)) (min_le_left _ _)
      exact this xs p.2
    · have : ∀ (ys : List (String × ℚ)) (a : ℚ), p ∈ ys →
          ys.foldl (fun m q => min m q.2) a ≤ p.2 := by
        intro ys
        induction ys with
        | nil => intro a h; exact absurd h (List.not_mem_nil p)
        | cons y ys ih =>
          intro a h
          rcases List.mem_cons.1 h with h2 | h2
          · subst h2
            have hd : ∀ (zs : List (String × ℚ)) (b : ℚ),
                zs.foldl (fun m q => min m q.2) b ≤ b := by
              intro zs
              induction zs with
              | nil => intro b; exact le_refl b
              | cons z zs ih2 =>
                intro b
                exact le_trans (ih2 (min b z.2)) (min_le_left _ _)
            exact le_trans (hd ys (min a p.2)) (min_le_right _ _)
          · exact ih (min a y.2) h2
      exact this xs x.2 h1

theorem valuesMin_mem {l : List (String × ℚ)} (h : l ≠ []) :
    ∃ p ∈ l, valuesMin l = p.2 := by
  cases l with
  | nil => exact absurd rfl h
  | cons x xs =>
    rw [valuesMin]
    have : ∀ (ys : List (String × ℚ)) (a : ℚ),
        (∃ p ∈ ys, ys.foldl (fun m q => min m q.2) a = p.2) ∨
          ys.foldl (fun m q => min m q.2) a = a := by
      intro ys
      induction ys with
      | nil => intro a; right; rfl
      | cons y ys ih =>
        intro a
        simp only [List.foldl_cons]
        rcases ih (min a y.2) with ⟨p, hp, hv⟩ | hv
        · left; exact ⟨p, List.mem_cons_of_mem _ hp, hv⟩
        · rcases min_choice a y.2 with hm | hm
          · right; rw [hv, hm]
          · left; exact ⟨y, List.mem_cons_self _ _, by rw [hv, hm]⟩
    rcases this xs x.2 with ⟨p, hp, hv⟩ | hv
    · exact ⟨p, List.mem_cons_of_mem _ hp, hv⟩
    · exact ⟨x, List.mem_cons_self _ _, hv⟩

theorem valuesMin_nonneg {l : List (String × ℚ)}
    (h0 : ∀ p ∈ l, 0 ≤ p.2) : 0 ≤ valuesMin l := by
  cases l with
  | nil => simp [valuesMin]
  | cons x xs =>
    rcases valuesMin_mem (l := x :: xs) (by simp) with ⟨p, hp, hv⟩
    rw [hv]; exact h0 p hp

theorem netRatios_nonneg {l : List (String × ℚ)} {p : String × ℚ}
    (hp : p ∈ netRatios l) : 0 ≤ p.2 := by
  rcases List.mem_map.1 hp with ⟨q, _, hq⟩
  rw [← hq]
  exact le_max_left _ _

theorem netRatios_le_one {l : List (String × ℚ)}
    (h0 : ∀ p ∈ l, 0 ≤ p.2) (h1 : ∀ p ∈ l, p.2 ≤ 1)
    {p : String × ℚ} (hp : p ∈ netRatios l) : p.2 ≤ 1 := by
  rcases List.mem_map.1 hp with ⟨q, hq, hqe⟩
  rw [← hqe]
  have hm := valuesMin_nonneg h0
  have := h1 q hq
  simp only [max_le_iff]
  constructor
  · norm_num
  · linarith

theorem netRatios_length (l : List (String × ℚ)) :
    (netRatios l).length = l.length := List.length_map _ _

theorem netRatios_ne_nil {l : List (String × ℚ)} (h : l ≠ []) :
    netRatios l ≠ [] := by
  cases l with
  | nil => exact absurd rfl h
  | cons x xs => simp [netRatios]


/-- Shape of the relative-ambiguity block result: it either falls through
or returns an "ambiguous" verdict whose selection has at least two
options and whose confidence is (top net - second net). -/
theorem close_competitor_shape (sn : List (String × ℚ)) (ft : ℚ) :
    close_competitor_check sn ft = none ∨
    ∃ sel, close_competitor_check sn ft =
        some (sel, "ambiguous",
          (sn.headD ("", 0)).2 - (sn.tail.headD ("", 0)).2) ∧
      2 ≤ sel.length ∧ 2 ≤ sn.length ∧ 0 < (sn.headD ("", 0)).2 := by
  simp only [close_competitor_check]
  split_ifs with h1 h2 h3 h4
  · right
    exact ⟨_, rfl, h4, h1.1, h1.2⟩
  all_goals left; rfl

/-- Shape of the fall-through block result: either an absolute-ambiguity
verdict with at least two selected options and confidence 0, or a single
"answered" option with the documented confidence. -/
theorem absolute_or_single_shape (fr sn : List (String × ℚ)) (amb : ℚ) :
    (∃ sel, absolute_or_single fr sn amb = (sel, "ambiguous", 0) ∧
      2 ≤ sel.length) ∨
    absolute_or_single fr sn amb =
      ([(sn.headD ("", 0)).1], "answered",
        if 2 ≤ sn.length then
          (sn.headD ("", 0)).2 - (sn.tail.headD ("", 0)).2
        else (sn.headD ("", 0)).2) := by
  simp only [absolute_or_single]
  split_ifs with h1 h2 h3
  · left; exact ⟨_, rfl, h1⟩
  · left; exact ⟨_, rfl, h1⟩
  · right; rfl
  · right; rfl

/-- Exhaustive case analysis of `determine_selected_answers`. -/
theorem determine_branches (l : List (String × ℚ)) (cfg : BubbleConfig) :
    determine_selected_answers l cfg = ([], "unanswered", 0) ∨
    (∃ sel, 2 ≤ sel.length ∧
      determine_selected_answers l cfg = (sel, "ambiguous", 0)) ∨
    (l ≠ [] ∧ 2 ≤ l.length ∧ 0 < topNetVal l ∧ ∃ sel, 2 ≤ sel.length ∧
      determine_selected_answers l cfg =
        (sel, "ambiguous", topNetVal l - secondNetVal l)) ∨
    (l ≠ [] ∧ determine_selected_answers l cfg =
        ([((sortDesc (netRatios l)).headD ("", 0)).1], "answered",
          if 2 ≤ l.length then topNetVal l - secondNetVal l
          else topNetVal l)) := by
  cases l with
  | nil => left; rfl
  | cons a as =>
    by_cases htop : ((sortDesc (a :: as)).headD ("", 0)).2 < cfg.fill_threshold
    · left
      simp only [determine_selected_answers]
      rw [if_pos htop]
    · have hlensn : (sortDesc (netRatios (a :: as))).length = (a :: as).length := by
        rw [sortDesc_length, netRatios_length]
      rcases close_competitor_shape (sortDesc (netRatios (a :: as)))
          cfg.fill_threshold with hcc | ⟨sel, hcc, hsel, hlen, hpos⟩
      · have hD : determine_selected_answers (a :: as) cfg =
            absolute_or_single (a :: as) (sortDesc (netRatios (a :: as)))
              cfg.ambiguous_threshold := by
          simp only [determine_selected_answers]
          rw [if_neg htop, hcc]
        rcases absolute_or_single_shape (a :: as)
            (sortDesc (netRatios (a :: as))) cfg.ambiguous_threshold with
          ⟨sel2, habs, hsel2⟩ | habs
        · right; left
          exact ⟨sel2, hsel2, by rw [hD, habs]⟩
        · right; right; right
          refine ⟨by simp, ?_⟩
          rw [hD, habs]
          simp only [hlensn, topNetVal, secondNetVal]
      · right; right; left
        have hD : determine_selected_answers (a :: as) cfg =
            (sel, "ambiguous", topNetVal (a :: as) - secondNetVal (a :: as)) := by
          simp only [determine_selected_answers]
          rw [if_neg htop, hcc]
          rfl
        have hl2 : 2 ≤ (a :: as).length := by rw [← hlensn]; exact hlen
        exact ⟨by simp, hl2, by simpa [topNetVal] using hpos, sel, hsel, hD⟩

theorem topNetVal_nonneg (l : List (String × ℚ)) : 0 ≤ topNetVal l := by
  cases l with
  | nil => simp [topNetVal, netRatios, sortDesc]
  | cons a as =>
    exact netRatios_nonneg
      (sortDesc_headD_mem (netRatios_ne_nil (by simp)) _)

theorem topNetVal_le_one {l : List (String × ℚ)}
    (h0 : ∀ p ∈ l, 0 ≤ p.2) (h1 : ∀ p ∈ l, p.2 ≤ 1) : topNetVal l ≤ 1 := by
  cases l with
  | nil => simp [topNetVal, netRatios, sortDesc]
  | cons a as =>
    exact netRatios_le_one h0 h1
      (sortDesc_headD_mem (netRatios_ne_nil (by simp)) _)

theorem secondNetVal_nonneg (l : List (String × ℚ)) : 0 ≤ secondNetVal l := by
  unfold secondNetVal
  cases hh : sortDesc (netRatios l) with
  | nil => simp
  | cons a s =>
    cases s with
    | nil => simp
    | cons b t =>
      simp only [List.tail_cons, List.headD_cons]
      have hb : b ∈ sortDesc (netRatios l) := by
        rw [hh]; exact List.mem_cons_of_mem _ (List.mem_cons_self _ _)
      exact netRatios_nonneg (mem_sortDesc.1 hb)

theorem secondNetVal_le_topNetVal (l : List (String × ℚ)) :
    secondNetVal l ≤ topNetVal l := by
  rcases sortDesc_second_le_head (l := netRatios l) ("", 0) with h | h
  · exact h
  · have h2 : secondNetVal l = 0 := by
      unfold secondNetVal
      rw [h]
      rfl
    rw [h2]
    exact topNetVal_nonneg l



/-- Claim C10: for every mapping of options to fill ratios in [0,1],
`determine_selected_answers` returns a status among
answered/unanswered/ambiguous, with the selection empty exactly when the
status is unanswered, a singleton exactly when it is answered, and of
size at least two exactly when it is ambiguous, and with the confidence
always in [0,1]. -/
theorem C10_selection_invariant (l : List (String × ℚ)) (cfg : BubbleConfig)
    (hb : ∀ p ∈ l, 0 ≤ p.2 ∧ p.2 ≤ 1) :
    ((determine_selected_answers l cfg).2.1 = "answered" ∨
      (determine_selected_answers l cfg).2.1 = "unanswered" ∨
      (determine_selected_answers l cfg).2.1 = "ambiguous") ∧
    ((determine_selected_answers l cfg).2.1 = "unanswered" ↔
      (determine_selected_answers l cfg).1 = []) ∧
    ((determine_selected_answers l cfg).2.1 = "answered" ↔
      (determine_selected_answers l cfg).1.length = 1) ∧
    ((determine_selected_answers l cfg).2.1 = "ambiguous" ↔
      2 ≤ (determine_selected_answers l cfg).1.length) ∧
    0 ≤ (determine_selected_answers l cfg).2.2 ∧
    (determine_selected_answers l cfg).2.2 ≤ 1 := by
  have h0 : ∀ p ∈ l, 0 ≤ p.2 := fun p hp => (hb p hp).1
  have h1 : ∀ p ∈ l, p.2 ≤ 1 := fun p hp => (hb p hp).2
  rcases determine_branches l cfg with hD | ⟨sel, hsel, hD⟩ |
    ⟨hne, hl2, hpos, sel, hsel, hD⟩ | ⟨hne, hD⟩
  · rw [hD]
    dsimp only
    exact ⟨Or.inr (Or.inl rfl), by decide, by decide, by decide,
      by norm_num, by norm_num⟩
  · rw [hD]
    dsimp only
    refine ⟨Or.inr (Or.inr rfl), ?_, ?_,
      ⟨fun _ => hsel, fun _ => rfl⟩, by norm_num, by norm_num⟩
    · constructor
      · intro h; exact absurd h (by decide)
      · intro h; rw [h] at hsel; simp at hsel
    · constructor
      · intro h; exact absurd h (by decide)
      · intro h; omega
  · rw [hD]
    dsimp only
    refine ⟨Or.inr (Or.inr rfl), ?_, ?_,
      ⟨fun _ => hsel, fun _ => rfl⟩, ?_, ?_⟩
    · constructor
      · intro h; exact absurd h (by decide)
      · intro h; rw [h] at hsel; simp at hsel
    · constructor
      · intro h; exact absurd h (by decide)
      · intro h; omega
    · have := secondNetVal_le_topNetVal l
      linarith
    · have ht := topNetVal_le_one h0 h1
      have hs := secondNetVal_nonneg l
      linarith
  · rw [hD]
    dsimp only
    refine ⟨Or.inl rfl, ?_, ⟨fun _ => rfl, fun _ => rfl⟩, ?_, ?_, ?_⟩
    · constructor
      · intro h; exact absurd h (by decide)
      · intro h; simp at h
    · constructor
      · intro h; exact absurd h (by decide)
      · intro h; simp at h
    · split_ifs
      · have := secondNetVal_le_topNetVal l; linarith
      · exact topNetVal_nonneg l
    · split_ifs
      · have ht := topNetVal_le_one h0 h1
        have hs := secondNetVal_nonneg l
        linarith
      · exact topNetVal_le_one h0 h1

/-- Claim C6: for every non-empty mapping in which every option's
absolute fill ratio is strictly below `fill_threshold`,
`determine_selected_answers` returns the empty selection, status
"unanswered", and confidence 0. -/
theorem C6_unanswered_rule (l : List (String × ℚ)) (cfg : BubbleConfig)
    (hne : l ≠ []) (hlt : ∀ p ∈ l, p.2 < cfg.fill_threshold) :
    determine_selected_answers l cfg = ([], "unanswered", 0) := by
  cases l with
  | nil => exact absurd rfl hne
  | cons x xs =>
    have htop : ((sortDesc (x :: xs)).headD ("", 0)).2 < cfg.fill_threshold :=
      hlt _ (sortDesc_headD_mem (by simp) _)
    simp only [determine_selected_answers]
    rw [if_pos htop]

/-- Witness for claim C6 at the concrete input A:0.10, B:0.10 with
threshold 0.30. -/
theorem C6_unanswered_rule_witness :
    determine_selected_answers [("A", 1/10), ("B", 1/10)] ⟨30/100, 65/100⟩ =
      ([], "unanswered", 0) :=
  C6_unanswered_rule _ _ (by simp)
    (by
      intro p hp
      simp only [List.mem_cons, List.not_mem_nil, or_false] at hp
      rcases hp with h | h <;> subst h <;> norm_num)

/-- Claim C5: with `fill_threshold` 0.30 and `ambiguous_threshold` 0.65,
two options both at absolute fill ratio 0.70 are reported "ambiguous"
with both letters selected, while 0.70 versus 0.20 is reported
"answered" with the 0.70 option selected and confidence 0.50 (the
post-baseline net difference). -/
theorem C5_ambiguous_answered_boundary :
    determine_selected_answers [("A", 70/100), ("B", 70/100)]
        ⟨30/100, 65/100⟩ = (["A", "B"], "ambiguous", 0) ∧
    determine_selected_answers [("A", 70/100), ("B", 20/100)]
        ⟨30/100, 65/100⟩ = (["A"], "answered", 50/100) := by
  constructor <;>
    norm_num [determine_selected_answers, close_competitor_check,
      absolute_or_single, netRatios, valuesMin, sortDesc, insertDesc,
      List.filter]



/-- Claim C4: for every mapping whose highest absolute ratio is at least
`fill_threshold`, if the second-highest net value exceeds
0.35*`fill_threshold` and exceeds 55% of the highest net value, and more
than one option has net value above the noise floor and above 45% of the
top net value, then `determine_selected_answers` returns status
"ambiguous", selection equal to exactly that set of competing options,
and confidence equal to the top net value minus the second net value. -/
theorem C4_relative_ambiguity (l : List (String × ℚ)) (cfg : BubbleConfig)
    (hft : 0 < cfg.fill_threshold)
    (htop : cfg.fill_threshold ≤ topAbsVal l)
    (hnoise : cfg.fill_threshold * (35 / 100) < secondNetVal l)
    (hrel : (55 / 100 : ℚ) * topNetVal l < secondNetVal l)
    (hcount : 1 < ((netRatios l).filter (fun p =>
        decide (cfg.fill_threshold * (35 / 100) < p.2) &&
          decide ((45 / 100 : ℚ) * topNetVal l < p.2))).length) :
    (determine_selected_answers l cfg).2.1 = "ambiguous" ∧
    (determine_selected_answers l cfg).2.2 = topNetVal l - secondNetVal l ∧
    ∀ o, o ∈ (determine_selected_answers l cfg).1 ↔
      ∃ v, (o, v) ∈ netRatios l ∧ cfg.fill_threshold * (35 / 100) < v ∧
        (45 / 100 : ℚ) * topNetVal l < v := by
  have hpos_second : 0 < secondNetVal l :=
    lt_trans (mul_pos hft (by norm_num)) hnoise
  have hpos_top : 0 < topNetVal l :=
    lt_of_lt_of_le hpos_second (secondNetVal_le_topNetVal l)
  have hfl : ((netRatios l).filter (fun p =>
      decide (cfg.fill_threshold * (35 / 100) < p.2) &&
        decide ((45 / 100 : ℚ) * topNetVal l < p.2))).length ≤
      (netRatios l).length := List.length_filter_le _ _
  have hl2 : 2 ≤ l.length := by
    rw [← netRatios_length l]; omega
  have hne : l ≠ [] := by
    intro h; rw [h] at hl2; simp at hl2
  -- raw (unfolded) restatements of the hypotheses, for rewriting
  have hpos_top' : 0 < ((sortDesc (netRatios l)).headD ("", 0)).2 := hpos_top
  have hnoise' : cfg.fill_threshold * (35 / 100) <
      ((sortDesc (netRatios l)).tail.headD ("", 0)).2 := hnoise
  -- the predicate of the Python list comprehension coincides with the
  -- simplified predicate because the top net value is positive
  have hpredeq : (fun p : String × ℚ =>
      decide (cfg.fill_threshold * (35 / 100) < p.2) &&
        (decide (((sortDesc (netRatios l)).headD ("", 0)).2 = 0) ||
          decide ((45 / 100 : ℚ) <
            p.2 / ((sortDesc (netRatios l)).headD ("", 0)).2))) =
      (fun p : String × ℚ =>
        decide (cfg.fill_threshold * (35 / 100) < p.2) &&
          decide ((45 / 100 : ℚ) * topNetVal l < p.2)) := by
    funext p
    have h1 : decide (((sortDesc (netRatios l)).headD ("", 0)).2 = 0) =
        false := decide_eq_false hpos_top'.ne'
    rw [h1]
    simp only [Bool.false_or]
    congr 1
    rw [decide_eq_decide]
    exact lt_div_iff₀ hpos_top'
  have hsnlen : 2 ≤ (sortDesc (netRatios l)).length := by
    rw [sortDesc_length, netRatios_length]; exact hl2
  have hdiv : (55 / 100 : ℚ) <
      ((sortDesc (netRatios l)).tail.headD ("", 0)).2 /
        ((sortDesc (netRatios l)).headD ("", 0)).2 :=
    (lt_div_iff₀ hpos_top').2 hrel
  have hlenclose : 1 < (((sortDesc (netRatios l)).filter (fun p =>
      decide (cfg.fill_threshold * (35 / 100) < p.2) &&
        decide ((45 / 100 : ℚ) * topNetVal l < p.2))).map Prod.fst).length := by
    rw [List.length_map,
      ((sortDesc_perm (netRatios l)).filter _).length_eq]
    exact hcount
  have hcc : close_competitor_check (sortDesc (netRatios l))
      cfg.fill_threshold =
      some ((((sortDesc (netRatios l)).filter (fun p =>
          decide (cfg.fill_threshold * (35 / 100) < p.2) &&
            decide ((45 / 100 : ℚ) * topNetVal l < p.2))).map Prod.fst),
        "ambiguous", topNetVal l - secondNetVal l) := by
    simp only [close_competitor_check]
    rw [if_pos ⟨hsnlen, hpos_top'⟩, if_pos hnoise', if_pos hdiv, hpredeq,
      if_pos hlenclose]
    rfl
  have hD : determine_selected_answers l cfg =
      ((((sortDesc (netRatios l)).filter (fun p =>
          decide (cfg.fill_threshold * (35 / 100) < p.2) &&
            decide ((45 / 100 : ℚ) * topNetVal l < p.2))).map Prod.fst),
        "ambiguous", topNetVal l - secondNetVal l) := by
    cases l with
    | nil => exact absurd rfl hne
    | cons a as =>
      have htop' : cfg.fill_threshold ≤
          ((sortDesc (a :: as)).headD ("", 0)).2 := htop
      simp only [determine_selected_answers]
      rw [if_neg (not_lt.2 htop'), hcc]
  rw [hD]
  dsimp only
  refine ⟨rfl, rfl, ?_⟩
  intro o
  constructor
  · intro ho
    rcases List.mem_map.1 ho with ⟨p, hpf, hpo⟩
    rcases List.mem_filter.1 hpf with ⟨hps, hpred⟩
    rw [Bool.and_eq_true, decide_eq_true_eq, decide_eq_true_eq] at hpred
    refine ⟨p.2, ?_, hpred.1, hpred.2⟩
    have hop : (o, p.2) = p := by rw [← hpo]
    rw [hop]
    exact mem_sortDesc.1 hps
  · rintro ⟨v, hv, h1, h2⟩
    apply List.mem_map.2
    refine ⟨(o, v), List.mem_filter.2 ⟨mem_sortDesc.2 hv, ?_⟩, rfl⟩
    rw [Bool.and_eq_true, decide_eq_true_eq, decide_eq_true_eq]
    exact ⟨h1, h2⟩

/-- Witness for claim C4 at the concrete input A:0.30, B:0.28, C:0.05
with the default thresholds (net values 0.25, 0.23, 0). -/
theorem C4_relative_ambiguity_witness :
    (determine_selected_answers [("A", 30/100), ("B", 28/100), ("C", 5/100)]
        ⟨30/100, 65/100⟩).2.1 = "ambiguous" ∧
    (determine_selected_answers [("A", 30/100), ("B", 28/100), ("C", 5/100)]
        ⟨30/100, 65/100⟩).2.2 = 2/100 := by
  have h := C4_relative_ambiguity
    [("A", 30/100), ("B", 28/100), ("C", 5/100)] ⟨30/100, 65/100⟩
    (by norm_num)
    (by norm_num [topAbsVal, sortDesc, insertDesc])
    (by norm_num [secondNetVal, netRatios, valuesMin, sortDesc, insertDesc])
    (by norm_num [topNetVal, secondNetVal, netRatios, valuesMin, sortDesc,
      insertDesc])
    (by norm_num [topNetVal, netRatios, valuesMin, sortDesc, insertDesc,
      List.filter])
  refine ⟨h.1, ?_⟩
  rw [h.2.1]
  norm_num [topNetVal, secondNetVal, netRatios, valuesMin, sortDesc, insertDesc]



/-- Adding a constant bias to every ratio shifts the baseline by the
same constant. -/
theorem valuesMin_shift (c : ℚ) (l : List (String × ℚ)) (hne : l ≠ []) :
    valuesMin (shiftList c l) = valuesMin l + c := by
  cases l with
  | nil => exact absurd rfl hne
  | cons x xs =>
    clear hne
    show (shiftList c xs).foldl (fun m p => min m p.2) (x.2 + c) =
      xs.foldl (fun m p => min m p.2) x.2 + c
    induction xs generalizing x with
    | nil => rfl
    | cons y ys ih =>
      show (shiftList c ys).foldl (fun m p => min m p.2) (min (x.2 + c) (y.2 + c)) =
        ys.foldl (fun m p => min m p.2) (min x.2 y.2) + c
      rw [min_add_add_right]
      exact ih (x.1, min x.2 y.2)

/-- Stable insertion commutes with a constant shift of all values. -/
theorem insertDesc_shift (c : ℚ) (x : String × ℚ) (l : List (String × ℚ)) :
    insertDesc (x.1, x.2 + c) (shiftList c l) = shiftList c (insertDesc x l) := by
  induction l with
  | nil => rfl
  | cons y ys ih =>
    show insertDesc (x.1, x.2 + c) ((y.1, y.2 + c) :: shiftList c ys) = _
    by_cases h : x.2 < y.2
    · rw [insertDesc, if_pos (by simpa using add_lt_add_right h c)]
      rw [show insertDesc x (y :: ys) = y :: insertDesc x ys from by
        rw [insertDesc, if_pos h]]
      rw [ih]
      rfl
    · have hnc : ¬(x.2 + c < y.2 + c) := fun hc => h (lt_of_add_lt_add_right hc)
      rw [insertDesc, if_neg (by simpa using hnc)]
      rw [show insertDesc x (y :: ys) = x :: y :: ys from by
        rw [insertDesc, if_neg h]]
      rfl

/-- The stable descending sort commutes with a constant shift. -/
theorem sortDesc_shift (c : ℚ) (l : List (String × ℚ)) :
    sortDesc (shiftList c l) = shiftList c (sortDesc l) := by
  induction l with
  | nil => rfl
  | cons x xs ih =>
    show insertDesc (x.1, x.2 + c) (sortDesc (shiftList c xs)) = _
    rw [ih, insertDesc_shift]
    rfl

/-- Net (baseline-subtracted) ratios are invariant under a constant
bias added to every option. -/
theorem netRatios_shift (c : ℚ) (l : List (String × ℚ)) (hne : l ≠ []) :
    netRatios (shiftList c l) = netRatios l := by
  unfold netRatios
  rw [valuesMin_shift c l hne]
  show (l.map fun p => (p.1, p.2 + c)).map _ = _
  rw [List.map_map]
  apply List.map_congr_left
  intro p _
  simp only [Function.comp_apply]
  congr 1
  have : p.2 + c - (valuesMin l + c) = p.2 - valuesMin l := by ring
  rw [this]

/-- The absolute high-fill option list is unchanged by a bias that
makes no option cross `ambiguous_threshold`. -/
theorem high_fill_shift (c : ℚ) (amb : ℚ) (l : List (String × ℚ))
    (hcross : ∀ p ∈ l, (amb ≤ p.2 ↔ amb ≤ p.2 + c)) :
    ((shiftList c l).filter (fun p => decide (amb ≤ p.2))).map Prod.fst =
      (l.filter (fun p => decide (amb ≤ p.2))).map Prod.fst := by
  induction l with
  | nil => rfl
  | cons x xs ih =>
    have hx := hcross x (List.mem_cons_self _ _)
    have ihx := ih (fun p hp => hcross p (List.mem_cons_of_mem _ hp))
    show ((((x.1, x.2 + c) :: shiftList c xs)).filter
      (fun p => decide (amb ≤ p.2))).map Prod.fst = _
    rw [List.filter_cons, List.filter_cons]
    by_cases h : amb ≤ x.2
    · rw [if_pos (by simpa using decide_eq_true (hx.1 h)),
        if_pos (by simpa using decide_eq_true h)]
      simp only [List.map_cons, ihx]
    · rw [if_neg (by simpa using fun hc => h (hx.2 hc)),
        if_neg (by simpa using h)]
      exact ihx

/-- The fall-through block is unchanged by a bias that makes no option
cross `ambiguous_threshold`. -/
theorem absolute_or_single_shift (c : ℚ) (l sn : List (String × ℚ)) (amb : ℚ)
    (hcross : ∀ p ∈ l, (amb ≤ p.2 ↔ amb ≤ p.2 + c)) :
    absolute_or_single (shiftList c l) sn amb =
      absolute_or_single l sn amb := by
  unfold absolute_or_single
  rw [high_fill_shift c amb l hcross]

/-- Claim C1 (amended): adding a constant bias c with
0 < c < `fill_threshold` to every option's fill ratio leaves the result
of `determine_selected_answers` (selection, status and confidence)
unchanged, provided the original top absolute ratio is already at least
`fill_threshold` and no option's ratio crosses `ambiguous_threshold`
when the bias is added.  The two provisos are forced by the
counterexample below: the unanswered check and the absolute-ambiguity
check compare raw (not baseline-subtracted) ratios against fixed
thresholds, so a bias can flip them. -/
theorem C1_bias_invariance_amended (l : List (String × ℚ))
    (cfg : BubbleConfig) (c : ℚ) (hne : l ≠ []) (hc0 : 0 < c)
    (hcft : c < cfg.fill_threshold)
    (htop : cfg.fill_threshold ≤ topAbsVal l)
    (hcross : ∀ p ∈ l, (cfg.ambiguous_threshold ≤ p.2 ↔
      cfg.ambiguous_threshold ≤ p.2 + c)) :
    determine_selected_answers (shiftList c l) cfg =
      determine_selected_answers l cfg := by
  cases l with
  | nil => exact absurd rfl hne
  | cons a as =>
    have hcons : shiftList c (a :: as) = (a.1, a.2 + c) :: shiftList c as := rfl
    have hnet : netRatios (shiftList c (a :: as)) = netRatios (a :: as) :=
      netRatios_shift c (a :: as) (by simp)
    have htop' : cfg.fill_threshold ≤ ((sortDesc (a :: as)).headD ("", 0)).2 :=
      htop
    have hheads : ((sortDesc (shiftList c (a :: as))).headD ("", 0)).2 =
        ((sortDesc (a :: as)).headD ("", 0)).2 + c := by
      rw [sortDesc_shift]
      have hs : sortDesc (a :: as) ≠ [] := sortDesc_ne_nil (by simp)
      cases hh : sortDesc (a :: as) with
      | nil => exact absurd hh hs
      | cons b t => rfl
    have habs : absolute_or_single (shiftList c (a :: as))
        (sortDesc (netRatios (a :: as))) cfg.ambiguous_threshold =
        absolute_or_single (a :: as)
          (sortDesc (netRatios (a :: as))) cfg.ambiguous_threshold :=
      absolute_or_single_shift c (a :: as) _ _ hcross
    rw [hcons]
    simp only [determine_selected_answers]
    rw [← hcons, hnet, hheads,
      if_neg (show ¬((sortDesc (a :: as)).headD ("", 0)).2 + c <
        cfg.fill_threshold from by linarith),
      if_neg (not_lt.2 htop')]
    simp only [habs]

/-- Witness for amended claim C1: bias 0.10 on A:0.70, B:0.20 with the
default thresholds. -/
theorem C1_bias_invariance_amended_witness :
    determine_selected_answers
        (shiftList (1/10) [("A", 7/10), ("B", 2/10)]) ⟨30/100, 65/100⟩ =
      determine_selected_answers [("A", 7/10), ("B", 2/10)]
        ⟨30/100, 65/100⟩ :=
  C1_bias_invariance_amended _ _ _ (by simp) (by norm_num) (by norm_num)
    (by norm_num [topAbsVal, sortDesc, insertDesc])
    (by
      intro p hp
      simp only [List.mem_cons, List.not_mem_nil, or_false] at hp
      rcases hp with h | h <;> subst h <;> norm_num)

/-- Counterexample to claim C1 as stated: with thresholds (0.30, 0.65),
the mapping A:0.20, B:0.20 is "unanswered", but after adding the bias
c = 0.15 (which satisfies 0 < c < fill_threshold) both ratios become
0.35, the unanswered check passes, and the result is "answered" with
option A selected: the status changes. -/
theorem C1_bias_invariance_counterexample :
    ((0 : ℚ) < 15/100 ∧ (15/100 : ℚ) < 30/100) ∧
    (determine_selected_answers [("A", 20/100), ("B", 20/100)]
        ⟨30/100, 65/100⟩).2.1 = "unanswered" ∧
    (determine_selected_answers
        (shiftList (15/100) [("A", 20/100), ("B", 20/100)])
        ⟨30/100, 65/100⟩).2.1 = "answered" := by
  refine ⟨by norm_num, ?_, ?_⟩ <;>
    norm_num [shiftList, determine_selected_answers, close_competitor_check,
      absolute_or_single, netRatios, valuesMin, sortDesc, insertDesc,
      List.filter]



/-- Claim C3 (amended): in non-strict mode `detect_paper_with_fallback`
never raises; when boundary detection itself raises it returns the full
image frame, but when the detected quadrilateral merely fails validation
it returns `None` (not the full frame) - the orchestrator then treats
that as a fatal paper-detection error. -/
theorem C3_fallback_amended (boundary : Option (List (ℚ × ℚ))) (h w : ℕ) :
    detect_paper_with_fallback boundary h w false =
      Except.ok (match boundary with
        | none => some (full_image_frame h w)
        | some corners =>
          if (validate_paper_detection corners (h, w)).1 then some corners
          else none) := by
  cases boundary with
  | none => rfl
  | some corners =>
    by_cases hval : (validate_paper_detection corners (h, w)).1 = true <;>
      simp [detect_paper_with_fallback, hval]

/-- Counterexample to claim C3 as stated: a 10x10 quadrilateral in a
100x100 image fails validation (area ratio 1% < 25%), and non-strict
`detect_paper_with_fallback` returns `None` rather than the full image
frame the claim requires. -/
theorem C3_fallback_counterexample :
    (validate_paper_detection [((1:ℚ),(2:ℚ)), (11,2), (11,12), (1,12)]
      (100, 100)).1 = false ∧
    detect_paper_with_fallback
        (some [((1:ℚ),(2:ℚ)), (11,2), (11,12), (1,12)]) 100 100 false =
      Except.ok none ∧
    (Except.ok none : Except String (Option (List (ℚ × ℚ)))) ≠
      Except.ok (some (full_image_frame 100 100)) := by
  have hv : (validate_paper_detection [((1:ℚ),(2:ℚ)), (11,2), (11,12), (1,12)]
      (100, 100)).1 = false := by
    norm_num [validate_paper_detection, contourArea, shoelaceSum,
      List.rotate, qmin, qmax]
  refine ⟨hv, ?_, by simp⟩
  simp [detect_paper_with_fallback, hv]

/-- Claim C9 (amended): at its default area-ratio arguments the paper
boundary detector accepts exactly the contours whose area is between
0.25 (not 0.2 as claimed) and 0.95 of the total image area,
inclusively. -/
theorem C9_area_filter_amended (contours : List ℚ) (img_area : ℚ) (a : ℚ) :
    a ∈ paper_contour_filter contours img_area ↔
      a ∈ contours ∧ (25 / 100 : ℚ) * img_area ≤ a ∧
        a ≤ (95 / 100 : ℚ) * img_area := by
  simp [paper_contour_filter, filter_contours_by_area, List.mem_filter,
    paper_min_area_ratio_default, paper_max_area_ratio_default,
    mul_comm, and_assoc]

/-- Counterexample to claim C9 as stated: a contour with 22% of the
image area lies within the claimed default bounds 0.2-0.95, yet the
filter with the actual defaults (0.25-0.95) rejects it. -/
theorem C9_area_filter_counterexample :
    ((2 / 10 : ℚ) * 100 ≤ 22 ∧ (22 : ℚ) ≤ (95 / 100) * 100) ∧
    paper_contour_filter [22] 100 = [] := by
  constructor
  · norm_num
  · norm_num [paper_contour_filter, filter_contours_by_area,
      paper_min_area_ratio_default, paper_max_area_ratio_default, List.filter]



/-- The running-minimum fold returns the unique strict minimiser. -/
theorem foldl_pick_min (f : ℚ × ℚ → ℚ) (a : ℚ × ℚ) (xs : List (ℚ × ℚ)) :
    ∀ init : ℚ × ℚ, (a = init ∨ a ∈ xs) →
      (∀ x, (x = init ∨ x ∈ xs) → x ≠ a → f a < f x) →
      xs.foldl (fun best p => if f p < f best then p else best) init = a := by
  induction xs with
  | nil =>
    intro init hmem _
    rcases hmem with h | h
    · exact h.symm
    · exact absurd h (List.not_mem_nil a)
  | cons y ys ih =>
    intro init hmem hlt
    simp only [List.foldl_cons]
    apply ih
    · by_cases hy : y = a
      · left
        rw [hy]
        split_ifs with hc
        · rfl
        · by_cases hi : init = a
          · exact hi.symm
          · exact absurd (hlt init (Or.inl rfl) hi) hc
      · rcases hmem with h | h
        · left
          rw [← h]
          rw [if_neg (not_lt.2 (le_of_lt
            (hlt y (Or.inr (List.mem_cons_self _ _)) hy)))]
        · rcases List.mem_cons.1 h with h1 | h1
          · exact absurd h1.symm hy
          · right; exact h1
    · intro x hx hxa
      apply hlt x _ hxa
      rcases hx with hx | hx
      · split_ifs at hx with hc
        · right; rw [hx]; exact List.mem_cons_self _ _
        · left; exact hx
      · right; exact List.mem_cons_of_mem _ hx

/-- The running-maximum fold returns the unique strict maximiser. -/
theorem foldl_pick_max (f : ℚ × ℚ → ℚ) (a : ℚ × ℚ) (xs : List (ℚ × ℚ)) :
    ∀ init : ℚ × ℚ, (a = init ∨ a ∈ xs) →
      (∀ x, (x = init ∨ x ∈ xs) → x ≠ a → f x < f a) →
      xs.foldl (fun best p => if f best < f p then p else best) init = a := by
  induction xs with
  | nil =>
    intro init hmem _
    rcases hmem with h | h
    · exact h.symm
    · exact absurd h (List.not_mem_nil a)
  | cons y ys ih =>
    intro init hmem hlt
    simp only [List.foldl_cons]
    apply ih
    · by_cases hy : y = a
      · left
        rw [hy]
        split_ifs with hc
        · rfl
        · by_cases hi : init = a
          · exact hi.symm
          · exact absurd (hlt init (Or.inl rfl) hi) hc
      · rcases hmem with h | h
        · left
          rw [← h]
          rw [if_neg (not_lt.2 (le_of_lt
            (hlt y (Or.inr (List.mem_cons_self _ _)) hy)))]
        · rcases List.mem_cons.1 h with h1 | h1
          · exact absurd h1.symm hy
          · right; exact h1
    · intro x hx hxa
      apply hlt x _ hxa
      rcases hx with hx | hx
      · split_ifs at hx with hc
        · right; rw [hx]; exact List.mem_cons_self _ _
        · left; exact hx
      · right; exact List.mem_cons_of_mem _ hx

/-- First-occurrence argmin selection returns the unique strict
minimiser. -/
theorem select_min_eq (f : ℚ × ℚ → ℚ) {pts : List (ℚ × ℚ)} {a : ℚ × ℚ}
    (ha : a ∈ pts) (h : ∀ x ∈ pts, x ≠ a → f a < f x) :
    select_min f pts = a := by
  cases pts with
  | nil => exact absurd ha (List.not_mem_nil a)
  | cons p ps =>
    show ps.foldl _ p = a
    apply foldl_pick_min
    · exact List.mem_cons.1 ha
    · intro x hx hxa
      apply h x _ hxa
      rcases hx with hx | hx
      · rw [hx]; exact List.mem_cons_self _ _
      · exact List.mem_cons_of_mem _ hx

/-- First-occurrence argmax selection returns the unique strict
maximiser. -/
theorem select_max_eq (f : ℚ × ℚ → ℚ) {pts : List (ℚ × ℚ)} {a : ℚ × ℚ}
    (ha : a ∈ pts) (h : ∀ x ∈ pts, x ≠ a → f x < f a) :
    select_max f pts = a := by
  cases pts with
  | nil => exact absurd ha (List.not_mem_nil a)
  | cons p ps =>
    show ps.foldl _ p = a
    apply foldl_pick_max
    · exact List.mem_cons.1 ha
    · intro x hx hxa
      apply h x _ hxa
      rcases hx with hx | hx
      · rw [hx]; exact List.mem_cons_self _ _
      · exact List.mem_cons_of_mem _ hx

/-- Claim C7 (amended): for 4 distinct points such that each of the four
extremisers (smallest and largest coordinate sum x+y, smallest and
largest difference y-x) is unique, `order_points` is invariant under
every permutation of the input and idempotent.  Uniqueness is forced by
the counterexample below: `np.argmin`/`np.argmax` break ties by position,
so with tied sums the output depends on the input order. -/
theorem C7_order_points_amended (pts qts : List (ℚ × ℚ))
    (hlen : pts.length = 4) (hnd : pts.Nodup) (hperm : qts.Perm pts)
    (h1 : UniqueMin (fun p => p.1 + p.2) pts)
    (h2 : UniqueMax (fun p => p.1 + p.2) pts)
    (h3 : UniqueMin (fun p => p.2 - p.1) pts)
    (h4 : UniqueMax (fun p => p.2 - p.1) pts) :
    order_points qts = order_points pts ∧
    order_points (order_points pts) = order_points pts := by
  obtain ⟨a, ha, hamin⟩ := h1
  obtain ⟨c, hc, hcmax⟩ := h2
  obtain ⟨b, hb, hbmin⟩ := h3
  obtain ⟨d, hd, hdmax⟩ := h4
  have hsa : select_min (fun p => p.1 + p.2) pts = a := select_min_eq _ ha hamin
  have hsb : select_min (fun p : ℚ × ℚ => p.2 - p.1) pts = b :=
    select_min_eq _ hb hbmin
  have hsc : select_max (fun p => p.1 + p.2) pts = c := select_max_eq _ hc hcmax
  have hsd : select_max (fun p : ℚ × ℚ => p.2 - p.1) pts = d :=
    select_max_eq _ hd hdmax
  have hop : order_points pts = [a, b, c, d] := by
    rw [order_points, hsa, hsb, hsc, hsd]
  constructor
  · rw [hop, order_points,
      select_min_eq _ (hperm.mem_iff.2 ha)
        (fun x hx => hamin x (hperm.mem_iff.1 hx)),
      select_min_eq _ (hperm.mem_iff.2 hb)
        (fun x hx => hbmin x (hperm.mem_iff.1 hx)),
      select_max_eq _ (hperm.mem_iff.2 hc)
        (fun x hx => hcmax x (hperm.mem_iff.1 hx)),
      select_max_eq _ (hperm.mem_iff.2 hd)
        (fun x hx => hdmax x (hperm.mem_iff.1 hx))]
  · have hsub : ∀ x ∈ [a, b, c, d], x ∈ pts := by
      intro x hx
      simp only [List.mem_cons, List.not_mem_nil, or_false] at hx
      rcases hx with rfl | rfl | rfl | rfl
      exacts [ha, hb, hc, hd]
    rw [hop, order_points,
      select_min_eq _ (show a ∈ [a, b, c, d] by simp)
        (fun x hx => hamin x (hsub x hx)),
      select_min_eq _ (show b ∈ [a, b, c, d] by simp)
        (fun x hx => hbmin x (hsub x hx)),
      select_max_eq _ (show c ∈ [a, b, c, d] by simp)
        (fun x hx => hcmax x (hsub x hx)),
      select_max_eq _ (show d ∈ [a, b, c, d] by simp)
        (fun x hx => hdmax x (hsub x hx))]

/-- Counterexample to claim C7 as stated: the four distinct points of
the diamond (0,1), (1,0), (2,1), (1,2) have tied coordinate sums, and
swapping the first two points changes the output of `order_points`. -/
theorem C7_order_points_counterexample :
    List.Perm [((1:ℚ),(0:ℚ)), (0,1), (2,1), (1,2)]
      [((0:ℚ),(1:ℚ)), (1,0), (2,1), (1,2)] ∧
    List.Nodup [((0:ℚ),(1:ℚ)), (1,0), (2,1), (1,2)] ∧
    order_points [((1:ℚ),(0:ℚ)), (0,1), (2,1), (1,2)] ≠
      order_points [((0:ℚ),(1:ℚ)), (1,0), (2,1), (1,2)] := by
  refine ⟨List.Perm.swap _ _ _, by norm_num [List.nodup_cons], ?_⟩
  norm_num [order_points, select_min, select_max]

/-- Witness for amended claim C7 on the quadrilateral
(1,2), (5,3), (6,7), (2,6), whose four extremisers are unique. -/
theorem C7_order_points_amended_witness :
    order_points [((5:ℚ),(3:ℚ)), (1,2), (6,7), (2,6)] =
      order_points [((1:ℚ),(2:ℚ)), (5,3), (6,7), (2,6)] ∧
    order_points (order_points [((1:ℚ),(2:ℚ)), (5,3), (6,7), (2,6)]) =
      order_points [((1:ℚ),(2:ℚ)), (5,3), (6,7), (2,6)] :=
  C7_order_points_amended _ _ (by norm_num) (by norm_num [List.nodup_cons])
    (List.Perm.swap _ _ _)
    (⟨(1, 2), by norm_num, by
      intro x hx hne
      simp only [List.mem_cons, List.not_mem_nil, or_false] at hx
      rcases hx with rfl | rfl | rfl | rfl
      · exact absurd rfl hne
      · norm_num
      · norm_num
      · norm_num⟩)
    (⟨(6, 7), by norm_num, by
      intro x hx hne
      simp only [List.mem_cons, List.not_mem_nil, or_false] at hx
      rcases hx with rfl | rfl | rfl | rfl
      · norm_num
      · norm_num
      · exact absurd rfl hne
      · norm_num⟩)
    (⟨(5, 3), by norm_num, by
      intro x hx hne
      simp only [List.mem_cons, List.not_mem_nil, or_false] at hx
      rcases hx with rfl | rfl | rfl | rfl
      · norm_num
      · exact absurd rfl hne
      · norm_num
      · norm_num⟩)
    (⟨(2, 6), by norm_num, by
      intro x hx hne
      simp only [List.mem_cons, List.not_mem_nil, or_false] at hx
      rcases hx with rfl | rfl | rfl | rfl
      · norm_num
      · norm_num
      · norm_num
      · exact absurd rfl hne⟩)



/-- Claim C2: for every run of `run_detection_pipeline`, the returned
result has status "failed" iff a fatal error occurred (a failed
template load, a preprocessing/decode failure - in either mode - a
missing paper boundary, a perspective-correction failure, or an
ROI-extraction failure, each of which aborts the orchestrator);
"needs_review" iff there are zero fatal errors but at least one
question detection has status "ambiguous"; and "success" otherwise. -/
theorem C2_overall_status (env : StageEnv) (strict_quality : Bool) :
    ((run_detection_pipeline env strict_quality).status = "failed" ↔
      fatal_error_occurred env) ∧
    ((run_detection_pipeline env strict_quality).status = "needs_review" ↔
      (¬ fatal_error_occurred env ∧ "ambiguous" ∈ env.questionStatuses)) ∧
    ((run_detection_pipeline env strict_quality).status = "success" ↔
      (¬ fatal_error_occurred env ∧ "ambiguous" ∉ env.questionStatuses)) := by
  rcases env with ⟨t, pre, blur, skew, po, pok, pv, ar, asuc, roi, qs⟩
  by_cases hmem : "ambiguous" ∈ qs
  all_goals (
    cases t <;> cases pre <;> cases po <;> cases pok <;> cases roi <;>
      cases strict_quality <;>
      simp [run_detection_pipeline, fatal_error_occurred, hmem,
        List.countP_pos_iff, beq_iff_eq])



/-- Claim C8: when no explicit search radius is supplied,
`detect_registration_marks` uses the base search radius
max(20, floor(0.024 * sqrt(w^2 + h^2))), and whenever the 2.4% formula
is at least 20 the radius is within 1 pixel of the exact
2.4%-of-diagonal value, so it scales proportionally with the image
diagonal. -/
theorem C8_search_radius (w h : ℕ) :
    (auto_search_radius w h : ℤ) =
      max 20 ⌊(24 / 1000 : ℝ) * Real.sqrt ((w : ℝ) ^ 2 + (h : ℝ) ^ 2)⌋ ∧
    (20 ≤ (24 / 1000 : ℝ) * Real.sqrt ((w : ℝ) ^ 2 + (h : ℝ) ^ 2) →
      |(auto_search_radius w h : ℝ) -
        (24 / 1000 : ℝ) * Real.sqrt ((w : ℝ) ^ 2 + (h : ℝ) ^ 2)| ≤ 1) := by
  set n : ℕ := w ^ 2 + h ^ 2 with hn
  set m : ℕ := Nat.sqrt (576 * n / 1000000) with hm
  have hx : (24 / 1000 : ℝ) * Real.sqrt ((w : ℝ) ^ 2 + (h : ℝ) ^ 2) =
      Real.sqrt ((576 * n : ℝ) / 1000000) := by
    have hcast : ((w : ℝ) ^ 2 + (h : ℝ) ^ 2) = (n : ℝ) := by
      rw [hn]; push_cast; ring
    rw [hcast,
      show (576 * n : ℝ) / 1000000 = (24 / 1000 : ℝ) ^ 2 * (n : ℝ) by
        push_cast; ring,
      Real.sqrt_mul (by positivity) ((n : ℝ)),
      Real.sqrt_sq (by norm_num : (0 : ℝ) ≤ 24 / 1000)]
  have hfloor : ⌊Real.sqrt ((576 * n : ℝ) / 1000000)⌋ = (m : ℤ) := by
    rw [Int.floor_eq_iff]
    constructor
    · have h2 : m * m ≤ 576 * n / 1000000 := Nat.sqrt_le _
      have h3 : m * m * 1000000 ≤ 576 * n :=
        le_trans (Nat.mul_le_mul_right _ h2) (Nat.div_mul_le_self _ _)
      have h3' : ((m : ℝ) * (m : ℝ) * 1000000) ≤ 576 * (n : ℝ) := by
        exact_mod_cast h3
      have h1 : ((m : ℤ) : ℝ) ^ 2 ≤ (576 * n : ℝ) / 1000000 := by
        rw [le_div_iff₀ (by norm_num : (0 : ℝ) < 1000000)]
        push_cast
        nlinarith [h3']
      calc ((m : ℤ) : ℝ) = Real.sqrt (((m : ℤ) : ℝ) ^ 2) :=
            (Real.sqrt_sq (by positivity)).symm
        _ ≤ _ := Real.sqrt_le_sqrt h1
    · have h5 : 576 * n / 1000000 < (m + 1) * (m + 1) := Nat.lt_succ_sqrt _
      have h6 : 576 * n < (m + 1) * (m + 1) * 1000000 :=
        (Nat.div_lt_iff_lt_mul (by norm_num : 0 < 1000000)).1 h5
      have h6' : (576 * (n : ℝ)) <
          ((m : ℝ) + 1) * ((m : ℝ) + 1) * 1000000 := by
        exact_mod_cast h6
      have h4 : (576 * n : ℝ) / 1000000 < (((m : ℤ) : ℝ) + 1) ^ 2 := by
        rw [div_lt_iff₀ (by norm_num : (0 : ℝ) < 1000000)]
        push_cast
        nlinarith [h6']
      calc Real.sqrt ((576 * n : ℝ) / 1000000) <
            Real.sqrt ((((m : ℤ) : ℝ) + 1) ^ 2) :=
            Real.sqrt_lt_sqrt (by positivity) h4
        _ = ((m : ℤ) : ℝ) + 1 := Real.sqrt_sq (by positivity)
  constructor
  · rw [hx, hfloor]
    show ((max 20 m : ℕ) : ℤ) = max 20 (m : ℤ)
    push_cast [Nat.cast_max]
    rfl
  · intro h20
    rw [hx] at h20 ⊢
    have hfm : (20 : ℤ) ≤ (m : ℤ) := by
      rw [← hfloor]
      exact Int.le_floor.2 (by exact_mod_cast h20)
    have hm20 : (20 : ℕ) ≤ m := by exact_mod_cast hfm
    have hauto : (auto_search_radius w h : ℝ) = (m : ℝ) := by
      show (((max 20 m : ℕ)) : ℝ) = (m : ℝ)
      rw [max_eq_right hm20]
    rw [hauto]
    have hle : ((m : ℤ) : ℝ) ≤ Real.sqrt ((576 * n : ℝ) / 1000000) := by
      rw [← hfloor]
      exact Int.floor_le _
    have hlt : Real.sqrt ((576 * n : ℝ) / 1000000) < ((m : ℤ) : ℝ) + 1 := by
      rw [← hfloor]
      exact Int.lt_floor_add_one _
    rw [abs_le]
    push_cast at hle hlt ⊢
    constructor <;> linarith

/-- Witness for claim C8 at a 600x800 image: the diagonal is exactly
1000, the radius is 24 = floor(0.024 * 1000), within 1 pixel of the
formula. -/
theorem C8_search_radius_witness :
    (20 : ℝ) ≤ (24 / 1000 : ℝ) *
      Real.sqrt (((600 : ℕ) : ℝ) ^ 2 + ((800 : ℕ) : ℝ) ^ 2) ∧
    auto_search_radius 600 800 = 24 ∧
    |(auto_search_radius 600 800 : ℝ) - (24 / 1000 : ℝ) *
      Real.sqrt (((600 : ℕ) : ℝ) ^ 2 + ((800 : ℕ) : ℝ) ^ 2)| ≤ 1 := by
  have hsq : Real.sqrt (((600 : ℕ) : ℝ) ^ 2 + ((800 : ℕ) : ℝ) ^ 2) = 1000 := by
    rw [show (((600 : ℕ) : ℝ) ^ 2 + ((800 : ℕ) : ℝ) ^ 2) = 1000 ^ 2 by
      push_cast; norm_num]
    exact Real.sqrt_sq (by norm_num)
  have h20 : (20 : ℝ) ≤ (24 / 1000 : ℝ) *
      Real.sqrt (((600 : ℕ) : ℝ) ^ 2 + ((800 : ℕ) : ℝ) ^ 2) := by
    rw [hsq]; norm_num
  have hval : auto_search_radius 600 800 = 24 := by
    rw [auto_search_radius,
      show 576 * (600 ^ 2 + 800 ^ 2) / 1000000 = 24 * 24 by norm_num,
      Nat.sqrt_eq]
    omega
  exact ⟨h20, hval, (C8_search_radius 600 800).2 h20⟩



/-- Witness for claim C10 at the concrete input A:0.70, B:0.20 with the
default thresholds. -/
theorem C10_selection_invariant_witness :
    (∀ p ∈ [("A", (7:ℚ)/10), ("B", (2:ℚ)/10)], 0 ≤ p.2 ∧ p.2 ≤ 1) ∧
    (((determine_selected_answers [("A", 7/10), ("B", 2/10)]
          ⟨30/100, 65/100⟩).2.1 = "answered" ∨
      (determine_selected_answers [("A", 7/10), ("B", 2/10)]
          ⟨30/100, 65/100⟩).2.1 = "unanswered" ∨
      (determine_selected_answers [("A", 7/10), ("B", 2/10)]
          ⟨30/100, 65/100⟩).2.1 = "ambiguous") ∧
    ((determine_selected_answers [("A", 7/10), ("B", 2/10)]
          ⟨30/100, 65/100⟩).2.1 = "unanswered" ↔
      (determine_selected_answers [("A", 7/10), ("B", 2/10)]
          ⟨30/100, 65/100⟩).1 = []) ∧
    ((determine_selected_answers [("A", 7/10), ("B", 2/10)]
          ⟨30/100, 65/100⟩).2.1 = "answered" ↔
      (determine_selected_answers [("A", 7/10), ("B", 2/10)]
          ⟨30/100, 65/100⟩).1.length = 1) ∧
    ((determine_selected_answers [("A", 7/10), ("B", 2/10)]
          ⟨30/100, 65/100⟩).2.1 = "ambiguous" ↔
      2 ≤ (determine_selected_answers [("A", 7/10), ("B", 2/10)]
          ⟨30/100, 65/100⟩).1.length) ∧
    0 ≤ (determine_selected_answers [("A", 7/10), ("B", 2/10)]
          ⟨30/100, 65/100⟩).2.2 ∧
    (determine_selected_answers [("A", 7/10), ("B", 2/10)]
          ⟨30/100, 65/100⟩).2.2 ≤ 1) := by
  have hb : ∀ p ∈ [("A", (7:ℚ)/10), ("B", (2:ℚ)/10)], 0 ≤ p.2 ∧ p.2 ≤ 1 := by
    intro p hp
    simp only [List.mem_cons, List.not_mem_nil, or_false] at hp
    rcases hp with h | h <;> subst h <;> norm_num
  exact ⟨hb, C10_selection_invariant _ _ hb⟩

end GradeLens
